import Mathlib

/-!
Verification of the hydra fan-out SSH runner (src/hydra.py and its spec).
The Python source is shallowly embedded: pure string manipulation becomes
functions on `String`/`List Char`, the network and the remote side become
oracle parameters, and the asyncio queues become lists consumed in FIFO
order.  Machine integers are modelled as `Int` (Python integers are
unbounded, so no wrap-around is involved).
-/

namespace Hydra

/-- Characters stripped by Python `str.rstrip()` (the ASCII whitespace set;
the source never feeds non-ASCII whitespace to `rstrip`). -/
def pyIsSpaceChar (c : Char) : Bool :=
  c = ' ' || c = '\t' || c = '\n' || c = '\r' || c = '\x0b' || c = '\x0c'

/-- Python `str.rstrip()` on a character list. -/
def rstripList (l : List Char) : List Char :=
  (l.reverse.dropWhile pyIsSpaceChar).reverse

/-- Python `line.rstrip()`. -/
def pyRstrip (s : String) : String :=
  String.mk (rstripList s.data)

/-- Python `s.startswith(pre)`. -/
def pyStartsWith (s pre : String) : Bool :=
  pre.data.isPrefixOf s.data

/-- Leftmost non-overlapping substring replacement on character lists,
fuelled so that the recursion is structural; `fuel = s.length` is always
enough because each step consumes at least one character of the input. -/
def replaceAux (pat rep : List Char) : Nat → List Char → List Char
  | _, [] => []
  | 0, s => s
  | fuel+1, c :: rest =>
    if pat.isPrefixOf (c :: rest) then
      rep ++ replaceAux pat rep fuel (List.drop pat.length (c :: rest))
    else
      c :: replaceAux pat rep fuel rest

/-- Python `s.replace(pat, rep)` for the non-empty patterns the source uses. -/
def pyReplace (s pat rep : String) : String :=
  if pat.isEmpty then s
  else String.mk (replaceAux pat.data rep.data s.data.length s.data)

/-- Does `pat` occur as a contiguous substring of the list? -/
def subOccurs (pat : List Char) : List Char → Bool
  | [] => pat.isEmpty
  | c :: rest => pat.isPrefixOf (c :: rest) || subOccurs pat rest

/-- `clean_ansi_codes` from src/hydra.py (lines 243-249): only a line that
begins with the two characters ESC `[` has the cursor-next-line /
cursor-previous-line prompt re-insertion and the cursor-visibility-toggle
stripping applied; every line is finally `rstrip`-ped. -/
def clean_ansi_codes (line prompt : String) : String :=
  let line' :=
    if pyStartsWith line "\x1b[" then
      let l1 := pyReplace line "\x1b[1E" ("\x1b[1E" ++ prompt)
      let l2 := pyReplace l1 "\x1b[1F" ("\x1b[1F" ++ prompt)
      let l3 := pyReplace l2 "\x1b[?25l" ""
      pyReplace l3 "\x1b[?25h" ""
    else line
  pyRstrip line'

/-- C10: a line that does not begin with ESC `[` is returned by
`clean_ansi_codes` unchanged except for stripping trailing whitespace;
the prompt re-insertion and the visibility-toggle stripping apply only to
lines starting with the escape introducer, so such sequences later in the
line pass through untouched. -/
theorem clean_ansi_no_introducer_rstrip_only
    (line prompt : String) (h : pyStartsWith line "\x1b[" = false) :
    clean_ansi_codes line prompt = pyRstrip line := by
  simp [clean_ansi_codes, h]

/-- C10 witness: a line with an interior cursor-next-line sequence and a
visibility toggle, not starting with ESC `[`, comes out with only its
trailing blank removed. -/
theorem clean_ansi_no_introducer_rstrip_only_witness :
    clean_ansi_codes "ab\x1b[1E cd\x1b[?25l " "[p] " = pyRstrip "ab\x1b[1E cd\x1b[?25l " :=
  clean_ansi_no_introducer_rstrip_only "ab\x1b[1E cd\x1b[?25l " "[p] " (by decide)

/-- Python truthiness of an `Optional[str]`: `None` and `""` are falsy. -/
def pyTruthy : Option String → Bool
  | none => false
  | some s => !(s == "")

/-- The four conventional key files scanned by `get_ssh_keys`
(src/hydra.py lines 114-119), in source order. -/
def common_keys (ssh_dir : String) : List String :=
  [ssh_dir ++ "/id_ed25519", ssh_dir ++ "/id_rsa",
   ssh_dir ++ "/id_ecdsa", ssh_dir ++ "/id_dsa"]

/-- `get_ssh_keys` from src/hydra.py (lines 109-130).  The filesystem
existence check is an oracle `pathExists`; `ssh_dir` stands for the
expansion of `~/.ssh`.  `Option.toList` turns the known-present
`key_path`/`default_key` into the singleton list the source returns. -/
def get_ssh_keys (key_path default_key : Option String)
    (pathExists : String → Bool) (ssh_dir : String) :
    Except String (List String) :=
  if pyTruthy key_path && !(key_path == some "#") then
    .ok key_path.toList
  else if pyTruthy default_key then
    .ok default_key.toList
  else
    let available_keys := (common_keys ssh_dir).filter pathExists
    if available_keys.isEmpty then
      .error "No SSH keys found in ~/.ssh/ and no key specified"
    else
      .ok available_keys

/-- C6: key resolution is a precedence chain.  A present, non-sentinel host
key reference wins outright regardless of the default key; otherwise a
present default key wins; otherwise the four conventional locations are
scanned in fixed order, the existing subset is returned in scan order, and
the no-credential error is raised exactly when that subset is empty. -/
theorem key_resolution_precedence :
    (∀ (kp : String) (dk : Option String) (ex : String → Bool) (dir : String),
      kp ≠ "" → kp ≠ "#" →
      get_ssh_keys (some kp) dk ex dir = .ok [kp]) ∧
    (∀ (kp : Option String) (dk : String) (ex : String → Bool) (dir : String),
      (pyTruthy kp = false ∨ kp = some "#") → dk ≠ "" →
      get_ssh_keys kp (some dk) ex dir = .ok [dk]) ∧
    (∀ (kp dk : Option String) (ex : String → Bool) (dir : String),
      (pyTruthy kp = false ∨ kp = some "#") → pyTruthy dk = false →
      (((common_keys dir).filter ex ≠ [] →
         get_ssh_keys kp dk ex dir = .ok ((common_keys dir).filter ex)) ∧
       ((common_keys dir).filter ex = [] →
         get_ssh_keys kp dk ex dir =
           .error "No SSH keys found in ~/.ssh/ and no key specified"))) := by
  refine ⟨?_, ?_, ?_⟩
  · intro kp dk ex dir hne hsent
    simp [get_ssh_keys, pyTruthy, hne, hsent]
  · intro kp dk ex dir hkp hdk
    have hfirst : (pyTruthy kp && !(kp == some "#")) = false := by
      rcases hkp with h | h
      · simp [h]
      · subst h; simp
    simp only [get_ssh_keys, hfirst]
    simp [pyTruthy, hdk]
  · intro kp dk ex dir hkp hdk
    have hfirst : (pyTruthy kp && !(kp == some "#")) = false := by
      rcases hkp with h | h
      · simp [h]
      · subst h; simp
    constructor
    · intro hne
      simp [get_ssh_keys, hfirst, hdk, List.isEmpty_iff, hne]
    · intro he
      simp [get_ssh_keys, hfirst, hdk, List.isEmpty_iff, he]

/-- C6 witness: an explicit key path beats a supplied default key even when
no conventional key file exists. -/
theorem key_resolution_precedence_witness :
    get_ssh_keys (some "/path/key") (some "/default/key") (fun _ => false)
      "/home/u/.ssh" = .ok ["/path/key"] :=
  key_resolution_precedence.1 "/path/key" (some "/default/key")
    (fun _ => false) "/home/u/.ssh" (by decide) (by decide)

/-- The transport algorithm preference in force for a connection attempt:
`narrowed` is the explicit `algorithm_options` dictionary of
src/hydra.py lines 68-75, `full` is the empty dictionary substituted at
line 95 (the remote's full default algorithm set). -/
inductive AlgMode
  | narrowed
  | full
deriving DecidableEq

/-- Outcome of one `asyncssh.connect` attempt as the source distinguishes
them: success, an `asyncssh.Error` carrying a disconnect code, or an
`asyncio.TimeoutError`. -/
inductive AttemptOutcome
  | success
  | sshError (msg : String) (code : Option Nat)
  | timeoutError
deriving DecidableEq

/-- `asyncssh.DISC_KEY_EXCHANGE_FAILED` (SSH disconnect reason 3). -/
def DISC_KEY_EXCHANGE_FAILED : Nat := 3

/-- The last error retained across attempts (`last_error` in
`retry_connect`). -/
inductive PyErr
  | ssh (msg : String) (code : Option Nat)
  | timeout
deriving DecidableEq

/-- Result of `retry_connect`. -/
inductive RCResult
  | connected
  | failed (msg : String)
deriving DecidableEq

/-- How one failed attempt updates `algorithm_options`
(src/hydra.py lines 91-95): only an `asyncssh.Error` whose code is
`DISC_KEY_EXCHANGE_FAILED` drops the narrowed preference. -/
def rcStep (mode : AlgMode) (o : AttemptOutcome) : AlgMode :=
  match o with
  | .sshError _ code =>
      if code = some DISC_KEY_EXCHANGE_FAILED then .full else mode
  | _ => mode

/-- The message raised once the attempt budget is exhausted
(src/hydra.py lines 102-106), as a function of `last_error`;
`timeoutStr` renders the float `timeout` argument. -/
def lastErrMsg (ip timeoutStr : String) : Option PyErr → String
  | some .timeout =>
      "Connection to " ++ ip ++ " timed out after " ++ timeoutStr ++ "s"
  | some (.ssh m _) => "Error connecting to " ++ ip ++ ": " ++ m
  | none => "Error connecting to " ++ ip ++ ": None"

/-- The attempt loop of `retry_connect` (src/hydra.py lines 76-101).
`outcome i mode` is the oracle for what `asyncssh.connect` does on attempt
`i` under algorithm preference `mode`; the first argument counts the
remaining iterations of `range(max_retries + 1)`. -/
def rcRun (ip timeoutStr : String)
    (outcome : Nat → AlgMode → AttemptOutcome) :
    Nat → Nat → AlgMode → Option PyErr → RCResult
  | 0, _, _, lastError => .failed (lastErrMsg ip timeoutStr lastError)
  | n+1, i, mode, _ =>
    match outcome i mode with
    | .success => .connected
    | .sshError m c =>
        rcRun ip timeoutStr outcome n (i+1)
          (rcStep mode (.sshError m c)) (some (.ssh m c))
    | .timeoutError => rcRun ip timeoutStr outcome n (i+1) mode (some .timeout)

/-- `retry_connect` (src/hydra.py lines 59-106): up to `max_retries + 1`
attempts starting from the narrowed algorithm preference and no last error. -/
def retry_connect (ip timeoutStr : String)
    (outcome : Nat → AlgMode → AttemptOutcome) (max_retries : Nat) : RCResult :=
  rcRun ip timeoutStr outcome (max_retries + 1) 0 .narrowed none

/-- The trace of attempts the loop actually performs: each entry records the
algorithm preference in force for that attempt and the attempt's outcome;
the trace stops after a success. -/
def rcAttempts (outcome : Nat → AlgMode → AttemptOutcome) :
    Nat → Nat → AlgMode → List (AlgMode × AttemptOutcome)
  | 0, _, _ => []
  | n+1, i, mode =>
    match outcome i mode with
    | .success => [(mode, .success)]
    | o => (mode, o) :: rcAttempts outcome n (i+1) (rcStep mode o)

/-- Attempt trace of a whole `retry_connect` call. -/
def retry_connect_attempts (outcome : Nat → AlgMode → AttemptOutcome)
    (max_retries : Nat) : List (AlgMode × AttemptOutcome) :=
  rcAttempts outcome (max_retries + 1) 0 .narrowed

/-- Is this outcome a transport negotiation failure attributable to
algorithm mismatch? -/
def isKexFail : AttemptOutcome → Bool
  | .sshError _ c => c == some DISC_KEY_EXCHANGE_FAILED
  | _ => false

/-- Folding an attempt's outcome into `last_error`. -/
def outcomeErr : AttemptOutcome → Option PyErr → Option PyErr
  | .sshError m c, _ => some (.ssh m c)
  | .timeoutError, _ => some .timeout
  | .success, le => le

theorem rcStep_full (o : AttemptOutcome) : rcStep .full o = .full := by
  cases o with
  | sshError m c => simp [rcStep]
  | success => rfl
  | timeoutError => rfl

theorem rcAttempts_full_all (outcome : Nat → AlgMode → AttemptOutcome) :
    ∀ (n i : Nat) (e : AlgMode × AttemptOutcome),
      e ∈ rcAttempts outcome n i .full → e.1 = .full := by
  intro n
  induction n with
  | zero => intro i e he; simp [rcAttempts] at he
  | succ n ih =>
    intro i e he
    rw [rcAttempts] at he
    rcases ho : outcome i .full with _ | ⟨m, c⟩ | _ <;> rw [ho] at he
    · rcases List.mem_singleton.mp he with rfl; rfl
    · rcases List.mem_cons.mp he with rfl | htail
      · rfl
      · exact ih (i+1) e (by rwa [rcStep_full] at htail)
    · rcases List.mem_cons.mp he with rfl | htail
      · rfl
      · exact ih (i+1) e (by rwa [rcStep_full] at htail)

theorem memOfGetElem {α : Type} :
    ∀ (l : List α) (n : Nat) (a : α), l[n]? = some a → a ∈ l := by
  intro l
  induction l with
  | nil => intro n a h; simp at h
  | cons x xs ih =>
    intro n a h
    rcases n with _ | n'
    · simp only [List.getElem?_cons_zero, Option.some.injEq] at h
      exact h ▸ List.mem_cons_self x xs
    · simp only [List.getElem?_cons_succ] at h
      exact List.mem_cons_of_mem _ (ih n' a h)

theorem rcAttempts_kex_then_full (outcome : Nat → AlgMode → AttemptOutcome) :
    ∀ (n i : Nat) (mode : AlgMode) (j k : Nat)
      (ej ek : AlgMode × AttemptOutcome),
      (rcAttempts outcome n i mode)[j]? = some ej →
      (rcAttempts outcome n i mode)[k]? = some ek →
      j < k → isKexFail ej.2 = true → ek.1 = .full := by
  intro n
  induction n with
  | zero => intro i mode j k ej ek hje _ _ _; simp [rcAttempts] at hje
  | succ n ih =>
    intro i mode j k ej ek hje hke hjk hkex
    rw [rcAttempts] at hje hke
    generalize ho : outcome i mode = o at hje hke
    rcases o with _ | ⟨m, c⟩ | _ <;> dsimp only at hje hke
    · rcases k with _ | k'
      · omega
      · simp at hke
    · rcases j with _ | j'
      · rcases k with _ | k'
        · omega
        · have hej : ej = (mode, .sshError m c) := by simpa using hje.symm
          have hc : c = some DISC_KEY_EXCHANGE_FAILED := by
            rw [hej] at hkex
            simpa [isKexFail] using hkex
          have hstep : rcStep mode (.sshError m c) = .full := by
            simp [rcStep, hc]
          have hke' : (rcAttempts outcome n (i+1) AlgMode.full)[k']?
              = some ek := by
            rw [← hstep]
            simpa using hke
          exact rcAttempts_full_all outcome n (i+1) ek (memOfGetElem _ _ _ hke')
      · rcases k with _ | k'
        · omega
        · exact ih (i+1) _ j' k' ej ek (by simpa using hje)
            (by simpa using hke) (by omega) hkex
    · rcases j with _ | j'
      · have hej : ej = (mode, .timeoutError) := by simpa using hje.symm
        rw [hej] at hkex
        simp [isKexFail] at hkex
      · rcases k with _ | k'
        · omega
        · exact ih (i+1) _ j' k' ej ek (by simpa using hje)
            (by simpa using hke) (by omega) hkex

/-- C7: within one `retry_connect` call, once some attempt fails with a key
exchange (algorithm-mismatch) failure, every later attempt in that call
runs with the remote's full default algorithm set — the narrowed preference
is never restored. -/
theorem algorithm_degradation_one_way
    (outcome : Nat → AlgMode → AttemptOutcome) (max_retries j k : Nat)
    (ej : AlgMode × AttemptOutcome)
    (hje : (retry_connect_attempts outcome max_retries)[j]? = some ej)
    (hjk : j < k) (hkex : isKexFail ej.2 = true) :
    (((retry_connect_attempts outcome max_retries)[k]?).getD
      (AlgMode.full, AttemptOutcome.success)).1 = AlgMode.full := by
  cases hk : (retry_connect_attempts outcome max_retries)[k]? with
  | none => rfl
  | some ek =>
      exact rcAttempts_kex_then_full outcome (max_retries + 1) 0 .narrowed
        j k ej ek hje hk hjk hkex

/-- A concrete connect oracle: attempt 0 fails with a key exchange failure,
later attempts fail with an unrelated error. -/
def kexThenOtherOracle : Nat → AlgMode → AttemptOutcome :=
  fun i _ => if i = 0 then .sshError "kex" (some 3) else .sshError "late" none

/-- C7 witness: with the oracle above and `max_retries = 2`, the third
attempt (after the first attempt's key exchange failure) runs with the full
default algorithm set. -/
theorem algorithm_degradation_one_way_witness :
    (((retry_connect_attempts kexThenOtherOracle 2)[2]?).getD
      (AlgMode.full, AttemptOutcome.success)).1 = AlgMode.full :=
  algorithm_degradation_one_way kexThenOtherOracle 2 0 2
    (AlgMode.narrowed, AttemptOutcome.sshError "kex" (some 3))
    (by decide) (by decide) (by decide)

theorem rcAttempts_length_le (outcome : Nat → AlgMode → AttemptOutcome) :
    ∀ (n i : Nat) (mode : AlgMode),
      (rcAttempts outcome n i mode).length ≤ n := by
  intro n
  induction n with
  | zero => intro i mode; simp [rcAttempts]
  | succ n ih =>
    intro i mode
    rw [rcAttempts]
    rcases ho : outcome i mode with _ | ⟨m, c⟩ | _
    · simp
    · simpa using Nat.succ_le_succ (ih (i+1) _)
    · simpa using Nat.succ_le_succ (ih (i+1) _)

theorem rcRun_all_fail (ip t : String)
    (outcome : Nat → AlgMode → AttemptOutcome) :
    ∀ (n i : Nat) (mode : AlgMode) (le : Option PyErr),
      (∀ e ∈ rcAttempts outcome n i mode, e.2 ≠ .success) →
      rcRun ip t outcome n i mode le =
        .failed (lastErrMsg ip t
          ((rcAttempts outcome n i mode).foldl (fun a e => outcomeErr e.2 a) le)) := by
  intro n
  induction n with
  | zero => intro i mode le _; simp [rcRun, rcAttempts]
  | succ n ih =>
    intro i mode le hfail
    rw [rcAttempts] at hfail
    rw [rcRun, rcAttempts]
    generalize ho : outcome i mode = o at hfail ⊢
    rcases o with _ | ⟨m, c⟩ | _ <;> dsimp only at hfail ⊢
    · have hne : AttemptOutcome.success ≠ AttemptOutcome.success := by
        simpa using hfail (mode, .success) (by simp)
      exact absurd rfl hne
    · have hfail' : ∀ e ∈ rcAttempts outcome n (i+1)
          (rcStep mode (.sshError m c)), e.2 ≠ .success := by
        intro e he; exact hfail e (List.mem_cons_of_mem _ he)
      rw [ih (i+1) _ (some (.ssh m c)) hfail']
      simp [outcomeErr]
    · have hfail' : ∀ e ∈ rcAttempts outcome n (i+1)
          (rcStep mode .timeoutError), e.2 ≠ .success := by
        intro e he; exact hfail e (List.mem_cons_of_mem _ he)
      have hstep : rcStep mode AttemptOutcome.timeoutError = mode := rfl
      rw [hstep] at hfail' ⊢
      rw [ih (i+1) mode (some .timeout) hfail']
      simp [outcomeErr]

/-- C8 (amended): `retry_connect` makes at most `max_retries + 1` attempts,
and when every attempt fails it raises a connection error whose message is
determined by the last failure: a timeout yields a message carrying the
host address and the elapsed timeout, while any other last failure yields a
message carrying the host address and that failure's text (without the
timeout annotation). -/
theorem retry_budget_and_error_message :
    (∀ (outcome : Nat → AlgMode → AttemptOutcome) (max_retries : Nat),
      (retry_connect_attempts outcome max_retries).length ≤ max_retries + 1) ∧
    (∀ (ip t : String) (outcome : Nat → AlgMode → AttemptOutcome)
      (max_retries : Nat),
      (∀ e ∈ retry_connect_attempts outcome max_retries, e.2 ≠ .success) →
      retry_connect ip t outcome max_retries =
        .failed (lastErrMsg ip t
          ((retry_connect_attempts outcome max_retries).foldl
            (fun a e => outcomeErr e.2 a) none))) := by
  constructor
  · intro outcome max_retries
    exact rcAttempts_length_le outcome (max_retries + 1) 0 .narrowed
  · intro ip t outcome max_retries hfail
    exact rcRun_all_fail ip t outcome (max_retries + 1) 0 .narrowed none hfail

/-- A connect oracle on which every attempt fails with the same
non-timeout error. -/
def alwaysSshErrOracle : Nat → AlgMode → AttemptOutcome :=
  fun _ _ => .sshError "kex failure" none

/-- C8 witness: both budget and message characterisation at a concrete
always-failing oracle. -/
theorem retry_budget_and_error_message_witness :
    (retry_connect_attempts alwaysSshErrOracle 1).length ≤ 2 ∧
    retry_connect "10.0.0.1" "5.0" alwaysSshErrOracle 1 =
      .failed (lastErrMsg "10.0.0.1" "5.0"
        ((retry_connect_attempts alwaysSshErrOracle 1).foldl
          (fun a e => outcomeErr e.2 a) none)) :=
  ⟨retry_budget_and_error_message.1 alwaysSshErrOracle 1,
   retry_budget_and_error_message.2 "10.0.0.1" "5.0" alwaysSshErrOracle 1
     (by decide)⟩

/-- C8 counterexample: when the attempts are exhausted by a non-timeout
failure, the raised message carries the address and the last failure but
not the elapsed timeout — here the timeout rendering "5.0" occurs nowhere
in the message, refuting the claim that the error is always annotated with
the elapsed timeout. -/
theorem exhaustion_message_lacks_timeout :
    retry_connect "10.0.0.1" "5.0" alwaysSshErrOracle 1 =
      .failed "Error connecting to 10.0.0.1: kex failure" ∧
    subOccurs "5.0".data "Error connecting to 10.0.0.1: kex failure".data
      = false := by
  constructor
  · rfl
  · rfl

/-- ANSI reset sequence (src/hydra.py line 29). -/
def RESET : String := "\x1b[0m"

/-- The fixed large remote height (src/hydra.py line 39). -/
def LINES : Nat := 1000

/-- The remote terminal width computed in `execute`
(src/hydra.py line 207): `local_display_width - max_name_length - 3`,
with no clamping. -/
def remote_width_of (local_display_width max_name_length : Int) : Int :=
  local_display_width - max_name_length - 3

/-- `ending_line = "-" * remote_width` (src/hydra.py line 213); Python's
string repetition yields the empty string for a non-positive count, which
`Int.toNat` mirrors. -/
def ending_line (remote_width : Int) : String :=
  String.mk (List.replicate remote_width.toNat '-')

/-- The end-of-output marker (src/hydra.py lines 214-218). -/
def end_marker (color : Bool) (host_color : String) (remote_width : Int) :
    String :=
  if color then host_color ++ ending_line remote_width ++ RESET
  else ending_line remote_width

/-- The command actually sent to the remote side
(src/hydra.py lines 159 and 180):
`env COLUMNS={remote_width} LINES={LINES} {ssh_command}`. -/
def command_with_env (remote_width : Int) (ssh_command : String) : String :=
  "env COLUMNS=" ++ toString remote_width ++ " LINES=" ++ toString LINES
    ++ " " ++ ssh_command

/-- `execute_command` (src/hydra.py lines 151-168, capture mode).
`runOracle` stands for `conn.run` applied to the command string; the
second component records whether `conn.close()` ran before returning:
the `finally` clause closes the session on both the success and the
error path. -/
def execute_command (remote_width : Int) (ssh_command : String)
    (runOracle : String → Except String String) :
    Except String String × Bool :=
  match runOracle (command_with_env remote_width ssh_command) with
  | .ok result => (.ok result, true)
  | .error e => (.error ("Error executing command: " ++ e), true)

/-- `stream_command_output` (src/hydra.py lines 171-190, stream mode).
`streamOracle` yields the lines produced by the remote process and an
optional `asyncssh.Error` that interrupted the stream.  Each line is
`rstrip`-ped before being enqueued; an error is swallowed and becomes a
diagnostic chunk in the same queue.  The second component records whether
`conn.close()` ran: the `async with` block closes only the created
process, never the connection, so it is `false`. -/
def stream_command_output (remote_width : Int) (ssh_command : String)
    (streamOracle : String → List String × Option String) :
    List String × Bool :=
  let p := streamOracle (command_with_env remote_width ssh_command)
  ((p.1.map pyRstrip) ++
    (match p.2 with
     | some e => ["Error executing command: " ++ e]
     | none => []), false)

/-- The per-host oracles for one run of `execute`: the outcome of
`establish_ssh_connection` (an `Error connecting` message on failure) and
the remote-side behaviour for each mode. -/
structure HostRun where
  connRes : Except String Unit
  runOracle : String → Except String String
  streamOracle : String → List String × Option String

/-- What one `execute` task did: the chunks it enqueued to its own queue
(in order, end marker included), whether a connection was established, and
whether the connection was closed before the task ended. -/
structure ExecResult where
  items : List String
  connEstablished : Bool
  connClosed : Bool
deriving DecidableEq

/-- `execute` (src/hydra.py lines 193-240).  Connection failure and
capture-mode execution failure are caught and converted to one diagnostic
chunk; the `finally` clause appends the end marker exactly once on every
path. -/
def execute (host_name ssh_command : String)
    (max_name_length local_display_width : Int)
    (separate_output color : Bool) (host_color : String)
    (run : HostRun) : ExecResult :=
  let remote_width := remote_width_of local_display_width max_name_length
  let em := end_marker color host_color remote_width
  match run.connRes with
  | .error e =>
      ⟨["Error connecting to " ++ host_name ++ ": " ++ e, em], false, false⟩
  | .ok _ =>
    if separate_output then
      match execute_command remote_width ssh_command run.runOracle with
      | (.ok output, closed) => ⟨[output, em], true, closed⟩
      | (.error e, closed) =>
          ⟨["Error executing command on " ++ host_name ++ ": " ++ e, em],
            true, closed⟩
    else
      let p := stream_command_output remote_width ssh_command run.streamOracle
      ⟨p.1 ++ [em], true, p.2⟩

/-- `establish_ssh_connection` (src/hydra.py lines 133-148): any failure of
key resolution or of `retry_connect` is re-wrapped into one
`Error connecting to {ip}` message. -/
def establish_ssh_connection (ip_address : String)
    (keysRes : Except String (List String))
    (connectRes : List String → Except String Unit) : Except String Unit :=
  match keysRes with
  | .error e => .error ("Error connecting to " ++ ip_address ++ ": " ++ e)
  | .ok keys =>
    match connectRes keys with
    | .ok _ => .ok ()
    | .error e => .error ("Error connecting to " ++ ip_address ++ ": " ++ e)

/-- One host's queue over a whole run: the chunks its own `execute` pushed,
then the close signal (`None`) pushed by `main`. -/
def hostQueue (r : ExecResult) : List (Option String) :=
  r.items.map some ++ [none]

/-- The queues of a whole run, one per host name; each host's queue is
built only from that host's own oracles. -/
def runQueues (hosts : List String) (ssh_command : String)
    (max_name_length local_display_width : Int)
    (separate_output color : Bool) (hostColor : String → String)
    (runs : String → HostRun) : String → List (Option String) :=
  fun h =>
    if hosts.contains h then
      hostQueue (execute h ssh_command max_name_length local_display_width
        separate_output color (hostColor h) (runs h))
    else []

/-- C3: a failing host enqueues exactly one diagnostic chunk to its own
queue, immediately followed by its normal end marker (after whatever
regular output preceded the failure in stream mode), the error never
escapes `execute`, and no sibling host's queue depends on it: each host's
queue is a function of that host's own oracles alone. -/
theorem execute_failure_single_diagnostic_isolated :
    (∀ (h cmd : String) (l w : Int) (sep color : Bool) (hc e : String)
       (ro : String → Except String String)
       (so : String → List String × Option String),
      execute h cmd l w sep color hc ⟨.error e, ro, so⟩ =
        ⟨["Error connecting to " ++ h ++ ": " ++ e,
          end_marker color hc (remote_width_of w l)], false, false⟩) ∧
    (∀ (h cmd : String) (l w : Int) (color : Bool) (hc e : String)
       (so : String → List String × Option String),
      execute h cmd l w true color hc ⟨.ok (), fun _ => .error e, so⟩ =
        ⟨["Error executing command on " ++ h ++ ": " ++
            ("Error executing command: " ++ e),
          end_marker color hc (remote_width_of w l)], true, true⟩) ∧
    (∀ (h cmd : String) (l w : Int) (color : Bool) (hc e : String)
       (ro : String → Except String String) (lines : List String),
      execute h cmd l w false color hc ⟨.ok (), ro, fun _ => (lines, some e)⟩ =
        ⟨lines.map pyRstrip ++
          ["Error executing command: " ++ e,
           end_marker color hc (remote_width_of w l)], true, false⟩) ∧
    (∀ (hosts : List String) (cmd : String) (l w : Int) (sep color : Bool)
       (hc : String → String) (runs runs' : String → HostRun) (h : String),
      runs h = runs' h →
      runQueues hosts cmd l w sep color hc runs h =
        runQueues hosts cmd l w sep color hc runs' h) := by
  refine ⟨?_, ?_, ?_, ?_⟩
  · intro h cmd l w sep color hc e ro so
    rfl
  · intro h cmd l w color hc e so
    rfl
  · intro h cmd l w color hc e ro lines
    simp [execute, stream_command_output]
  · intro hosts cmd l w sep color hc runs runs' h hr
    simp [runQueues, hr]

/-- C3 witness: with two hosts where only "b" fails, "a"'s queue is the
same whether "b" fails or not, and the failing connect path produces
exactly the diagnostic-then-marker shape. -/
theorem execute_failure_single_diagnostic_isolated_witness :
    execute "web1" "ls" 4 80 true false "" ⟨.error "down",
        fun _ => .ok "", fun _ => ([], none)⟩ =
      ⟨["Error connecting to web1: down", end_marker false "" 73],
        false, false⟩ ∧
    runQueues ["a", "b"] "ls" 1 80 true false (fun _ => "")
        (fun _ => ⟨.ok (), fun _ => .ok "out", fun _ => ([], none)⟩) "a" =
      runQueues ["a", "b"] "ls" 1 80 true false (fun _ => "")
        (fun h => if h = "b"
          then ⟨.error "down", fun _ => .ok "out", fun _ => ([], none)⟩
          else ⟨.ok (), fun _ => .ok "out", fun _ => ([], none)⟩) "a" :=
  ⟨execute_failure_single_diagnostic_isolated.1 "web1" "ls" 4 80 true false
      "" "down" (fun _ => .ok "") (fun _ => ([], none)),
   execute_failure_single_diagnostic_isolated.2.2.2 ["a", "b"] "ls" 1 80
      true false (fun _ => "")
      (fun _ => ⟨.ok (), fun _ => .ok "out", fun _ => ([], none)⟩)
      (fun h => if h = "b"
        then ⟨.error "down", fun _ => .ok "out", fun _ => ([], none)⟩
        else ⟨.ok (), fun _ => .ok "out", fun _ => ([], none)⟩)
      "a" rfl⟩

theorem execute_command_closes_conn (rw : Int) (cmd : String)
    (ro : String → Except String String) :
    (execute_command rw cmd ro).2 = true := by
  unfold execute_command
  cases ro (command_with_env rw cmd) <;> rfl

theorem execute_capture_closed (h cmd : String) (l w : Int)
    (color : Bool) (hc : String) (ro : String → Except String String)
    (so : String → List String × Option String) :
    (execute h cmd l w true color hc ⟨.ok (), ro, so⟩).connClosed = true := by
  have hcc := execute_command_closes_conn (remote_width_of w l) cmd ro
  dsimp only [execute]
  rcases hec : execute_command (remote_width_of w l) cmd ro with ⟨res, closed⟩
  rw [hec] at hcc
  rcases res with o | e
  · simpa using hcc
  · simpa using hcc

/-- C4 (amended): in capture mode the session is always closed before the
task ends — `execute_command`'s `finally` closes it whether the command
succeeded or failed — but in stream mode `execute` never closes the
connection (the `async with` closes only the created process), so an
established session is still open when the task ends. -/
theorem session_close_by_mode :
    (∀ (rw : Int) (cmd : String) (ro : String → Except String String),
      (execute_command rw cmd ro).2 = true) ∧
    (∀ (h cmd : String) (l w : Int) (color : Bool) (hc : String)
       (run : HostRun),
      (execute h cmd l w true color hc run).connEstablished = true →
      (execute h cmd l w true color hc run).connClosed = true) ∧
    (∀ (h cmd : String) (l w : Int) (color : Bool) (hc : String)
       (ro : String → Except String String)
       (so : String → List String × Option String),
      (execute h cmd l w false color hc ⟨.ok (), ro, so⟩).connEstablished
        = true ∧
      (execute h cmd l w false color hc ⟨.ok (), ro, so⟩).connClosed
        = false) := by
  refine ⟨?_, ?_, ?_⟩
  · intro rw cmd ro
    exact execute_command_closes_conn rw cmd ro
  · intro h cmd l w color hc run hest
    rcases run with ⟨connRes, ro, so⟩
    rcases connRes with e | u
    · simp [execute] at hest
    · cases u
      exact execute_capture_closed h cmd l w color hc ro so
  · intro h cmd l w color hc ro so
    constructor <;> rfl

/-- C4 witness: a concrete capture-mode run with an established connection
has the session closed before the task ends. -/
theorem session_close_by_mode_witness :
    (execute "web1" "ls" 4 80 true false ""
      ⟨.ok (), fun _ => .ok "out", fun _ => ([], none)⟩).connClosed = true :=
  session_close_by_mode.2.1 "web1" "ls" 4 80 false ""
    ⟨.ok (), fun _ => .ok "out", fun _ => ([], none)⟩ rfl

/-- C4 counterexample: in stream mode a host whose connection was
established ends its task with the session still open — `conn.close()` is
never called on the stream path — refuting "the session is always closed
before that host's execution task ends, in both modes". -/
theorem stream_mode_leaves_session_open :
    (execute "web1" "ls" 4 80 false false ""
      ⟨.ok (), fun _ => .ok "", fun _ => (["line"], none)⟩).connEstablished
        = true ∧
    (execute "web1" "ls" 4 80 false false ""
      ⟨.ok (), fun _ => .ok "", fun _ => (["line"], none)⟩).connClosed
        = false := by
  constructor <;> rfl

/-- The printer loop of `print_output` (src/hydra.py lines 261-264): pop
items in FIFO order, stop at the close signal `None`, process everything
before it. -/
def printerPops : List (Option String) → List String
  | [] => []
  | none :: _ => []
  | some s :: rest => s :: printerPops rest

theorem printerPops_appends (chunks : List String) (rest : List (Option String)) :
    printerPops (chunks.map some ++ rest) = chunks ++ printerPops rest := by
  induction chunks with
  | nil => rfl
  | cons c cs ih => simp [printerPops, ih]

/-- C5: a host's printer pops exactly what its producer pushed, in FIFO
order — all content chunks in production order, then the single end
marker — and terminates on the single close signal, independently of other
hosts (each queue is per host by construction).  Stated both for an
arbitrary chunk list and for the queue a successful stream-mode `execute`
produces, with the `[A, B]` example of the spec. -/
theorem printer_fifo_order :
    (∀ (chunks : List String) (em : String),
      printerPops (chunks.map some ++ [some em] ++ [none]) = chunks ++ [em]) ∧
    (∀ (h cmd : String) (l w : Int) (color : Bool) (hc : String)
       (ro : String → Except String String) (lines : List String),
      printerPops (hostQueue
          (execute h cmd l w false color hc ⟨.ok (), ro,
            fun _ => (lines, none)⟩)) =
        lines.map pyRstrip ++ [end_marker color hc (remote_width_of w l)]) ∧
    printerPops [some "A", some "B", some "M", none] = ["A", "B", "M"] := by
  refine ⟨?_, ?_, rfl⟩
  · intro chunks em
    rw [List.append_assoc, printerPops_appends]
    rfl
  · intro h cmd l w color hc ro lines
    show printerPops ((execute h cmd l w false color hc
        ⟨.ok (), ro, fun _ => (lines, none)⟩).items.map some ++ [none]) = _
    have hitems : (execute h cmd l w false color hc
        ⟨.ok (), ro, fun _ => (lines, none)⟩).items
        = lines.map pyRstrip ++ [end_marker color hc (remote_width_of w l)] := by
      simp [execute, stream_command_output]
    rw [hitems, List.map_append, List.append_assoc, printerPops_appends]
    rfl

/-- The observable steps of `main` (src/hydra.py lines 305-331), in program
order: the printer tasks are scheduled with `asyncio.ensure_future` (its
future is never awaited), the execute tasks are awaited with
`asyncio.gather`, then `None` is enqueued to every host's queue, then
`main` returns.  `printTasksAwaited` is the event the spec requires; the
code never produces it. -/
inductive OrchEvent
  | startPrinters
  | execTasksAwaited
  | enqueueClose (host : String)
  | printTasksAwaited
  | mainReturns
deriving DecidableEq, BEq

/-- The event trace of one `main` run over the given host list. -/
def mainEvents (hosts : List String) : List OrchEvent :=
  OrchEvent.startPrinters :: OrchEvent.execTasksAwaited ::
    (hosts.map OrchEvent.enqueueClose ++ [OrchEvent.mainReturns])

/-- Does the trace contain the event? -/
def hasEvent (e : OrchEvent) (l : List OrchEvent) : Bool :=
  l.any (fun x => x == e)

/-- C2 (code evaluated at the failing input): the close signals are
enqueued only after the execute-task barrier, but `main` returns without
ever awaiting the printer tasks — on no host list does the trace contain a
printer join, and for the one-host run the full trace is barrier, closes,
return. -/
theorem main_returns_without_awaiting_printers :
    (∀ hosts : List String,
      hasEvent OrchEvent.printTasksAwaited (mainEvents hosts) = false) ∧
    mainEvents ["alpha"] =
      [OrchEvent.startPrinters, OrchEvent.execTasksAwaited,
       OrchEvent.enqueueClose "alpha", OrchEvent.mainReturns] := by
  constructor
  · intro hosts
    induction hosts with
    | nil => rfl
    | cons h hs ih =>
        simp only [mainEvents, List.map_cons, List.cons_append, hasEvent,
          List.any_cons, Bool.or_eq_false_iff] at ih ⊢
        exact ⟨ih.1, ih.2.1, rfl, ih.2.2⟩
  · rfl

/-- C9 counterexample: with a local display 10 columns wide and a
name column of 20, the remote width actually computed and passed to the
remote side is -13 — negative, so no floor clamp to a sane minimum
exists, refuting the claim. -/
theorem remote_width_negative_no_clamp :
    remote_width_of 10 20 = -13 ∧
    remote_width_of 10 20 < 0 ∧
    command_with_env (remote_width_of 10 20) "ls"
      = "env COLUMNS=-13 LINES=1000 ls" := by
  refine ⟨rfl, by decide, ?_⟩
  rfl

/-- C9 (amended): the remote terminal width is exactly
`local_display_width - max_name_length - 3`, embedded verbatim into the
`env COLUMNS=... LINES=1000` command sent to the remote side, with no
floor clamp — it can be zero or negative when the display is narrower than
the name column plus the 3-column gutter, in which case the end-marker
repetition degenerates to the empty string. -/
theorem remote_width_formula :
    (∀ (w l : Int) (cmd : String),
      command_with_env (remote_width_of w l) cmd =
        command_with_env (w - l - 3) cmd) ∧
    (∀ w l : Int, w - l - 3 ≤ 0 → ending_line (remote_width_of w l) = "") ∧
    remote_width_of 13 10 = 0 ∧ remote_width_of 10 20 < 0 := by
  refine ⟨?_, ?_, rfl, by decide⟩
  · intro w l cmd
    rfl
  · intro w l hle
    unfold ending_line remote_width_of
    rw [Int.toNat_of_nonpos hle]
    rfl

/-- C9 amended-claim witness: a 10-column display with a 20-wide name
column yields an empty end marker line. -/
theorem remote_width_formula_witness :
    ending_line (remote_width_of 10 20) = "" :=
  remote_width_formula.2.1 10 20 (by decide)

/-- The escape character. -/
def ESC : Char := '\x1b'

/-- CSI parameter characters: digits, `;`, `?`. -/
def isParamChar (c : Char) : Bool :=
  c.isDigit || c = ';' || c = '?'

/-- CSI final bytes (the 0x40-0x7E range of the ANSI standard); an escape
introducer not completed by a final byte is treated as plain text. -/
def isFinalByte (c : Char) : Bool :=
  decide (0x40 ≤ c.toNat) && decide (c.toNat ≤ 0x7E)

/-- Erase-in-line parameter strings: erase to end (`""`/`"0"`), erase to
beginning (`"1"`), erase entire line (`"2"`), as exercised by
src/tests/test_output.py. -/
def isEraseParams (ps : List Char) : Bool :=
  ps == [] || ps == ['0'] || ps == ['1'] || ps == ['2']

/-- Cursor-repositioning final bytes (movement, positioning, screen clear,
save/restore), stripped when cursor control is not allowed. -/
def isCursorFinal (c : Char) : Bool :=
  c = 'A' || c = 'B' || c = 'C' || c = 'D' || c = 'E' || c = 'F' ||
  c = 'G' || c = 'H' || c = 'J' || c = 'f' || c = 's' || c = 'u'

/-- Cursor save. -/
def saveSeq : List Char := ['\x1b', '[', 's']

/-- Jump to column 0. -/
def jumpSeq : List Char := ['\x1b', '[', 'G']

/-- Cursor restore. -/
def restoreSeq : List Char := ['\x1b', '[', 'u']

/-- What the rewriter emits for one parsed CSI sequence with parameter
characters `ps` and final byte `f`: an erase-in-line is kept and followed
by cursor save, jump to column 0, the prompt, and cursor restore; a
visibility toggle or a cursor-repositioning sequence is stripped unless
cursor control is allowed; color/style (`m`) and anything unrecognised
pass through. -/
def csiEmit (allow : Bool) (prompt ps : List Char) (f : Char) : List Char :=
  let seq := ESC :: '[' :: (ps ++ [f])
  if f == 'K' && isEraseParams ps then
    seq ++ saveSeq ++ jumpSeq ++ prompt ++ restoreSeq
  else if ps == ['?', '2', '5'] && (f == 'l' || f == 'h') then
    if allow then seq else []
  else if f == 'm' then seq
  else if isCursorFinal f then
    if allow then seq else []
  else seq

/-- One step of the rewriter's scan at character `c` with remaining input
`rest`: what is emitted and what remains to scan.  A carriage return not
immediately followed by an escape has the prompt re-inserted after it. -/
def adjustStep (allow : Bool) (prompt : List Char) (c : Char)
    (rest : List Char) : List Char × List Char :=
  if c = ESC then
    match rest with
    | [] => ([c], [])
    | x :: rest1 =>
      if x = '[' then
        match rest1.dropWhile isParamChar with
        | f :: rest2 =>
          if isFinalByte f then
            (csiEmit allow prompt (rest1.takeWhile isParamChar) f, rest2)
          else ([c], rest)
        | [] => ([c], rest)
      else ([c], rest)
  else if c = '\r' then
    match rest with
    | [] => (c :: prompt, [])
    | e :: _ => if e = ESC then ([c], rest) else (c :: prompt, rest)
  else ([c], rest)

/-- The rewriter's scan, fuelled: each step consumes at least one input
character and the fuel drops by exactly one, so `fuel = input length`
always suffices. -/
def adjustAux (allow : Bool) (prompt : List Char) : Nat → List Char → List Char
  | _, [] => []
  | 0, s => s
  | fuel+1, c :: rest =>
    (adjustStep allow prompt c rest).1 ++
      adjustAux allow prompt fuel (adjustStep allow prompt c rest).2

/-- Modelled from the spec: the ANSI Rewriter
`rewrite(chunk, prompt, allow_cursor_control)` of spec §4.5 — the
repository's `ananta/output.py` `adjust_cursor_with_prompt`, which is not
under `src/` (only `src/tests/test_output.py` exercises it).  One scan over
the chunk applies, in precedence order: (1) erase-in-line sequences are
followed by cursor save, jump to column 0, the prompt, and cursor restore;
(2) a carriage return not immediately followed by a control sequence has
the prompt re-inserted after it; (3/4) cursor-repositioning and
visibility-toggle sequences are stripped unless `allow_cursor_control`;
(5) color/style sequences always pass through; (6) trailing whitespace is
trimmed from the result. -/
def adjust_cursor_with_prompt (line prompt : String)
    (allow_cursor_control : Bool) : String :=
  String.mk (rstripList
    (adjustAux allow_cursor_control prompt.data line.data.length line.data))

example :
    adjust_cursor_with_prompt "Text\x1b[2KFull erase" "[prompt] " false
      = "Text\x1b[2K\x1b[s\x1b[G[prompt] \x1b[uFull erase" := by decide

example :
    adjust_cursor_with_prompt "Text\x1b[1KPartial erase" "[prompt] " false
      = "Text\x1b[1K\x1b[s\x1b[G[prompt] \x1b[uPartial erase" := by decide

example :
    adjust_cursor_with_prompt "Line with cursor up \x1b[1A" "[prompt] " false
      = "Line with cursor up" := by decide

example :
    adjust_cursor_with_prompt "Line with cursor up \x1b[1A" "[prompt] " true
      = "Line with cursor up \x1b[1A" := by decide

example :
    adjust_cursor_with_prompt "Line with clear screen \x1b[2J" "[prompt] " false
      = "Line with clear screen" := by decide

example :
    adjust_cursor_with_prompt "Line with \x1b[31mcolor\x1b[0m" "[prompt] " false
      = "Line with \x1b[31mcolor\x1b[0m" := by decide

example :
    adjust_cursor_with_prompt "Line \rwith carriage return" "[prompt] " false
      = "Line \r[prompt] with carriage return" := by decide

example :
    adjust_cursor_with_prompt "Simple line" "[prompt] " false
      = "Simple line" := by decide

theorem isInfixAppendLeft {l t : List Char} (E : List Char)
    (h : l <:+: t) : l <:+: E ++ t := by
  rcases h with ⟨s, r, rfl⟩
  exact ⟨E ++ s, r, by simp [List.append_assoc]⟩

theorem dropWhile_append_not_head (p : Char → Bool) :
    ∀ (a : List Char) (c : Char) (r : List Char), p c = false →
      (a ++ c :: r).dropWhile p = a.dropWhile p ++ c :: r := by
  intro a
  induction a with
  | nil => intro c r hc; simp [List.dropWhile, hc]
  | cons x a' ih =>
    intro c r hc
    cases hx : p x with
    | true => simp [List.dropWhile, hx, ih c r hc]
    | false => simp [List.dropWhile, hx]

theorem dropWhile_head_false (p : Char → Bool) :
    ∀ (a : List Char) (f : Char) (w : List Char),
      a.dropWhile p = f :: w → p f = false := by
  intro a
  induction a with
  | nil => intro f w h; simp at h
  | cons x a' ih =>
    intro f w h
    cases hx : p x with
    | true =>
      simp only [List.dropWhile, hx] at h
      exact ih f w h
    | false =>
      simp only [List.dropWhile, hx] at h
      rcases h with ⟨rfl, rfl⟩
      exact hx

theorem length_dropWhile_le' (p : Char → Bool) :
    ∀ l : List Char, (l.dropWhile p).length ≤ l.length := by
  intro l
  induction l with
  | nil => simp
  | cons x l' ih =>
    cases hx : p x with
    | true =>
      simp only [List.dropWhile, hx]
      exact le_trans ih (Nat.le_succ _)
    | false => simp [List.dropWhile, hx]

theorem adjustStep_snd_le (allow : Bool) (prompt : List Char) (c : Char)
    (rest : List Char) :
    (adjustStep allow prompt c rest).2.length ≤ rest.length := by
  unfold adjustStep
  by_cases hesc : c = ESC
  · rw [if_pos hesc]
    cases rest with
    | nil => exact Nat.le_refl _
    | cons x rest1 =>
      dsimp only
      by_cases hbr : x = '['
      · rw [if_pos hbr]
        cases hd : rest1.dropWhile isParamChar with
        | nil => exact Nat.le_refl _
        | cons f rest2 =>
          dsimp only
          by_cases hfin : isFinalByte f
          · rw [if_pos hfin]
            show rest2.length ≤ rest1.length + 1
            have h1 := length_dropWhile_le' isParamChar rest1
            rw [hd] at h1
            simp only [List.length_cons] at h1
            omega
          · rw [if_neg hfin]
      · rw [if_neg hbr]
  · rw [if_neg hesc]
    by_cases hcr : c = '\r'
    · rw [if_pos hcr]
      cases rest with
      | nil => exact Nat.le_refl _
      | cons e rest1 =>
        dsimp only
        by_cases he : e = ESC
        · rw [if_pos he]
        · rw [if_neg he]
    · rw [if_neg hcr]

theorem adjustStep_bracket (allow : Bool) (prompt : List Char)
    (rest1 : List Char) :
    adjustStep allow prompt ESC ('[' :: rest1)
      = match rest1.dropWhile isParamChar with
        | f :: rest2 =>
          if isFinalByte f then
            (csiEmit allow prompt (rest1.takeWhile isParamChar) f, rest2)
          else (['\x1b'], '[' :: rest1)
        | [] => (['\x1b'], '[' :: rest1) := rfl

theorem adjustStep_snd_preserves (allow : Bool) (prompt pat : List Char)
    (hpat : pat = ['\x1b', '[', 'K'] ∨ pat = ['\x1b', '[', '2', 'K'])
    (c : Char) (u' v : List Char) :
    ∃ u₂ : List Char,
      (adjustStep allow prompt c (u' ++ (pat ++ v))).2
        = u₂ ++ (pat ++ v) := by
  by_cases hesc : c = ESC
  · subst hesc
    cases u' with
    | nil =>
      rcases hpat with rfl | rfl
      · exact ⟨[], rfl⟩
      · exact ⟨[], rfl⟩
    | cons x u'' =>
      by_cases hbr : x = '['
      · subst hbr
        have hdrop : (u'' ++ (pat ++ v)).dropWhile isParamChar
            = u''.dropWhile isParamChar ++ (pat ++ v) := by
          rcases hpat with rfl | rfl
          · exact dropWhile_append_not_head isParamChar u'' '\x1b'
              (['[', 'K'] ++ v) (by decide)
          · exact dropWhile_append_not_head isParamChar u'' '\x1b'
              (['[', '2', 'K'] ++ v) (by decide)
        cases hd : u''.dropWhile isParamChar with
        | nil =>
          refine ⟨'[' :: u'', ?_⟩
          show (adjustStep allow prompt ESC ('[' :: (u'' ++ (pat ++ v)))).2
              = '[' :: (u'' ++ (pat ++ v))
          rw [adjustStep_bracket, hdrop, hd, List.nil_append]
          rcases hpat with rfl | rfl
          · rfl
          · rfl
        | cons f w =>
          by_cases hfin : isFinalByte f
          · refine ⟨w, ?_⟩
            show (adjustStep allow prompt ESC ('[' :: (u'' ++ (pat ++ v)))).2
                = w ++ (pat ++ v)
            rw [adjustStep_bracket, hdrop, hd, List.cons_append]
            dsimp only
            rw [if_pos hfin]
          · refine ⟨'[' :: u'', ?_⟩
            show (adjustStep allow prompt ESC ('[' :: (u'' ++ (pat ++ v)))).2
                = '[' :: (u'' ++ (pat ++ v))
            rw [adjustStep_bracket, hdrop, hd, List.cons_append]
            dsimp only
            rw [if_neg hfin]
      · refine ⟨x :: u'', ?_⟩
        show (adjustStep allow prompt ESC (x :: (u'' ++ (pat ++ v)))).2
            = x :: (u'' ++ (pat ++ v))
        unfold adjustStep
        rw [if_pos rfl]
        dsimp only
        rw [if_neg hbr]
  · by_cases hcr : c = '\r'
    · subst hcr
      cases u' with
      | nil =>
        rcases hpat with rfl | rfl
        · exact ⟨[], rfl⟩
        · exact ⟨[], rfl⟩
      | cons x u'' =>
        by_cases hx : x = ESC
        · subst hx
          exact ⟨ESC :: u'', rfl⟩
        · refine ⟨x :: u'', ?_⟩
          show (adjustStep allow prompt '\r' (x :: (u'' ++ (pat ++ v)))).2
              = x :: (u'' ++ (pat ++ v))
          unfold adjustStep
          rw [if_neg (by decide : ¬ ('\r' = ESC)), if_pos rfl]
          dsimp only
          rw [if_neg hx]
    · refine ⟨u', ?_⟩
      show (adjustStep allow prompt c (u' ++ (pat ++ v))).2
          = u' ++ (pat ++ v)
      unfold adjustStep
      rw [if_neg hesc, if_neg hcr]

theorem adjustAux_head_erase (allow : Bool) (prompt : List Char) (n : Nat)
    (v : List Char) :
    (adjustAux allow prompt (n+1) (['\x1b', '[', 'K'] ++ v)
       = (['\x1b', '[', 'K'] ++ saveSeq ++ jumpSeq ++ prompt ++ restoreSeq)
         ++ adjustAux allow prompt n v)
    ∧ (adjustAux allow prompt (n+1) (['\x1b', '[', '2', 'K'] ++ v)
       = (['\x1b', '[', '2', 'K'] ++ saveSeq ++ jumpSeq ++ prompt
            ++ restoreSeq)
         ++ adjustAux allow prompt n v) :=
  ⟨rfl, rfl⟩

theorem adjustAux_erase_block (allow : Bool) (prompt pat : List Char)
    (hpat : pat = ['\x1b', '[', 'K'] ∨ pat = ['\x1b', '[', '2', 'K']) :
    ∀ (fuel : Nat) (u v : List Char), (u ++ (pat ++ v)).length ≤ fuel →
      (pat ++ saveSeq ++ jumpSeq ++ prompt ++ restoreSeq) <:+:
        adjustAux allow prompt fuel (u ++ (pat ++ v)) := by
  intro fuel
  induction fuel with
  | zero =>
    intro u v hlen
    rcases hpat with rfl | rfl <;> simp [List.length_append] at hlen
  | succ n ih =>
    intro u v hlen
    cases u with
    | nil =>
      rcases hpat with rfl | rfl
      · rw [List.nil_append, (adjustAux_head_erase allow prompt n v).1]
        exact ⟨[], adjustAux allow prompt n v, by simp⟩
      · rw [List.nil_append, (adjustAux_head_erase allow prompt n v).2]
        exact ⟨[], adjustAux allow prompt n v, by simp⟩
    | cons c u' =>
      obtain ⟨u₂, hu₂⟩ :=
        adjustStep_snd_preserves allow prompt pat hpat c u' v
      have hunf : adjustAux allow prompt (n+1) ((c :: u') ++ (pat ++ v))
          = (adjustStep allow prompt c (u' ++ (pat ++ v))).1 ++
            adjustAux allow prompt n
              (adjustStep allow prompt c (u' ++ (pat ++ v))).2 := rfl
      rw [hunf, hu₂]
      refine isInfixAppendLeft _ (ih u₂ v ?_)
      have h1 : (u' ++ (pat ++ v)).length + 1 ≤ n + 1 := by
        simpa using hlen
      have h2 : (u₂ ++ (pat ++ v)).length ≤ (u' ++ (pat ++ v)).length := by
        rw [← hu₂]
        exact adjustStep_snd_le allow prompt c (u' ++ (pat ++ v))
      omega

theorem rstrip_preserves_block (x : List Char) (c : Char)
    (hc : pyIsSpaceChar c = false) (l : List Char)
    (h : (x ++ [c]) <:+: l) : (x ++ [c]) <:+: rstripList l := by
  rcases h with ⟨s, r, hsr⟩
  refine ⟨s, (r.reverse.dropWhile pyIsSpaceChar).reverse, ?_⟩
  subst hsr
  unfold rstripList
  have h1 : (s ++ (x ++ [c]) ++ r).reverse
      = r.reverse ++ (c :: (x.reverse ++ s.reverse)) := by
    simp [List.reverse_append]
  rw [h1, dropWhile_append_not_head pyIsSpaceChar r.reverse c
      (x.reverse ++ s.reverse) hc]
  simp [List.reverse_append, List.append_assoc]

/-- C1: for every chunk containing an erase-in-line sequence (erase-to-end
`ESC [ K` or erase-entire-line `ESC [ 2 K`) and every prompt, the rewrite
applied before printing leaves the erase sequence immediately followed by
a cursor save, a jump to column 0, the prompt, and a cursor restore; in
particular "Text\x1b[2KFull erase" with prompt "[p] " rewrites to the text,
the erase sequence, save/jump/prompt/restore, then "Full erase". -/
theorem ansi_rewrite_erase_reinserts_prompt :
    (∀ (chunk prompt : String) (allow : Bool) (pat : List Char),
      (pat = ['\x1b', '[', 'K'] ∨ pat = ['\x1b', '[', '2', 'K']) →
      pat <:+: chunk.data →
      (pat ++ saveSeq ++ jumpSeq ++ prompt.data ++ restoreSeq) <:+:
        (adjust_cursor_with_prompt chunk prompt allow).data) ∧
    adjust_cursor_with_prompt "Text\x1b[2KFull erase" "[p] " false
      = "Text\x1b[2K\x1b[s\x1b[G[p] \x1b[uFull erase" := by
  constructor
  · intro chunk prompt allow pat hpat hinf
    rcases hinf with ⟨u, v, huv⟩
    have huv' : u ++ (pat ++ v) = chunk.data := by
      rw [← List.append_assoc]
      exact huv
    have hmain := adjustAux_erase_block allow prompt.data pat hpat
      chunk.data.length u v (le_of_eq (by rw [huv']))
    rw [huv'] at hmain
    show (pat ++ saveSeq ++ jumpSeq ++ prompt.data ++ restoreSeq) <:+:
      rstripList (adjustAux allow prompt.data chunk.data.length chunk.data)
    have hblock : pat ++ saveSeq ++ jumpSeq ++ prompt.data ++ restoreSeq
        = (pat ++ saveSeq ++ jumpSeq ++ prompt.data ++ ['\x1b', '['])
            ++ ['u'] := by
      simp [restoreSeq, List.append_assoc]
    rw [hblock] at hmain ⊢
    exact rstrip_preserves_block _ 'u' (by decide) _ hmain
  · decide

/-- C1 witness: a chunk with an interior erase-to-end sequence, under
cursor control allowed, still has the erase sequence followed by
save, jump, prompt, restore in the rewritten output. -/
theorem ansi_rewrite_erase_reinserts_prompt_witness :
    (['\x1b', '[', 'K'] ++ saveSeq ++ jumpSeq ++ ("[h] ").data ++ restoreSeq)
      <:+: (adjust_cursor_with_prompt "ab\x1b[Kcd" "[h] " true).data :=
  ansi_rewrite_erase_reinserts_prompt.1 "ab\x1b[Kcd" "[h] " true
    ['\x1b', '[', 'K'] (Or.inl rfl) (by decide)

end Hydra
